import Mathlib

/-!
Shallow embedding of the matching/deduplication engine of the
practice_parsing repository, together with theorems settling the
specification claims about it.

Embedded source files:
* src/parsers/content_comparator.py   (lexical n-gram / TF-IDF matcher)
* src/parsers/content_comporator_bert.py (semantic deduplicator and matcher)
* src/models/post_models.py           (post dataclasses)

Modelling conventions:
* Python strings are Lean `String`s; Python floats used for scores and
  thresholds are modelled as `ℚ` (they are only added and compared),
  except the IDF weights of `compute_tfidf_weights`, whose defining
  formula `log(N / (df + 1))` is modelled over `ℝ` with `Real.log`.
* Python dicts are association lists in insertion order (`dget`/`dset`),
  matching CPython's order-preserving dict semantics; `Counter` is
  modelled as a multiplicity function.
* Python sets of n-grams are duplicate-free lists in first-insertion
  order (`dedupFirst`); only membership, size and intersection-sums are
  ever used, and every intersection is consumed by an order-independent
  sum, so the unspecified iteration order of CPython sets is harmless
  except for the leaked loop variable of find_matching_posts, which the
  embedding reproduces explicitly (see lexScanNgramStep).
* The module parsers/comporator_config.py is not part of src/; its
  constants are modelled from the spec (configuration surface, §4.3/§4.4):
  window size 3, absolute threshold 60, relative threshold 0.9, and a
  stop-phrase set that is passed around as an explicit parameter.
* The external SentenceTransformer model is modelled, per the spec's
  Embedding Provider contract (deterministic `encode`), as similarity
  functions on posts: `cosine_similarity(emb(p), emb(q))` is a
  deterministic function of the pair of posts.
-/

namespace PracticeParsing

/-! ## Small Python-semantics helpers -/

/-- Python `a or b` on strings: `a` when non-empty (truthy), else `b`. -/
def pyOrS (a b : String) : String :=
  if a = "" then b else a

/-- Accumulator pass of `pySplit`: walk the characters, flushing the
current word at whitespace.  Structural recursion (kernel-evaluable). -/
def wordsAux : List Char → List Char → List String
  | [], cur => if cur.isEmpty then [] else [String.mk cur.reverse]
  | c :: cs, cur =>
    if c.isWhitespace then
      if cur.isEmpty then wordsAux cs []
      else String.mk cur.reverse :: wordsAux cs []
    else wordsAux cs (c :: cur)

/-- Python `text.split()`: split on whitespace runs, dropping empty pieces. -/
def pySplit (text : String) : List String :=
  wordsAux text.data []

/-- Python `set(xs)` as a duplicate-free list in first-insertion order. -/
def dedupFirst (l : List String) : List String :=
  l.foldl (fun acc x => if x ∈ acc then acc else acc ++ [x]) []

/-- Python `set.add`: append the element unless already present. -/
def sadd (s : List ℕ) (x : ℕ) : List ℕ :=
  if x ∈ s then s else s ++ [x]

/-- Python dict lookup `d[k]` / `k in d` on an insertion-ordered assoc list. -/
def dget {K V : Type} [DecidableEq K] (d : List (K × V)) (k : K) : Option V :=
  (d.find? (fun e => e.1 = k)).map (fun e => e.2)

/-- Python dict assignment `d[k] = v`: replace in place, else append. -/
def dset {K V : Type} [DecidableEq K] (d : List (K × V)) (k : K) (v : V) :
    List (K × V) :=
  if (d.find? (fun e => e.1 = k)).isSome then
    d.map (fun e => if e.1 = k then (k, v) else e)
  else
    d ++ [(k, v)]

/-- Stable insertion of `x` into a sorted list: `x` goes after every
element `y` with `le y x` (so earlier-inserted ties stay first). -/
def insertStable {γ : Type} (le : γ → γ → Bool) (x : γ) : List γ → List γ
  | [] => [x]
  | y :: ys => if le y x then y :: insertStable le x ys else x :: y :: ys

/-- Python's `sorted` (a stable sort), as a structurally recursive
stable insertion sort over the boolean precedence relation `le`: stable
sorts over a total precedence agree element for element, and this one,
unlike well-founded merge sort, evaluates inside the kernel. -/
def sortStable {γ : Type} (le : γ → γ → Bool) (l : List γ) : List γ :=
  l.foldl (fun acc x => insertStable le x acc) []

/-! ## Text Normalizer: preprocess_text (content_comparator.py lines 13-25) -/

/-- Character class of Python's regex `\w` (word character), as used in
`re.sub(r'[^\w\s]', '', text)`.  Modelled for the ASCII range
(alphanumeric or underscore); none of the claims depends on the exact
Unicode extent of the class. -/
def isWordChar (c : Char) : Bool :=
  c.isAlphanum || c = '_'

/-- preprocess_text: lowercase, strip punctuation (characters that are
neither word characters nor whitespace), collapse whitespace runs to
single spaces and trim.  `re.sub(r'\s+', ' ', s).strip()` is realized as
joining `s.split()` with single spaces. -/
def preprocess_text (text : String) : String :=
  if text = "" then ""
  else
    let lowered := String.mk (text.data.map Char.toLower)
    let noPunct := String.mk (lowered.data.filter
      (fun c => isWordChar c || c.isWhitespace))
    String.intercalate " " (pySplit noPunct)

/-! ## N-gram Indexer: generate_ngrams (content_comparator.py lines 28-46) -/

/-- Sliding n-token windows: `[' '.join(words[i:i+n]) for i in
range(len(words) - n + 1)]`.  The Python range bound `len - n + 1` is
evaluated over ℤ; for n ≥ 1 it equals the ℕ expression `len + 1 - n`. -/
def ngramWindows (words : List String) (n : ℕ) : List String :=
  (List.range (words.length + 1 - n)).map
    (fun i => String.intercalate " " ((words.drop i).take n))

/-- Body of generate_ngrams for a valid window size: windows filtered
against the configured stop-phrase set (the STOP_NGRAMS constant of the
absent config module, passed here explicitly). -/
def ngramList (stop : List String) (text : String) (n : ℕ) : List String :=
  (ngramWindows (pySplit text) n).filter (fun g => g ∉ stop)

/-- generate_ngrams: raises ValueError for `n ≤ 0`, else returns the
filtered windows. -/
def generate_ngrams (stop : List String) (text : String) (n : ℤ) :
    Except String (List String) :=
  if n ≤ 0 then Except.error "n must be positive integer"
  else Except.ok (ngramList stop text n.toNat)

/-- Modelled from the spec: NGRAM_SIZE of the absent
parsers/comporator_config.py (default window = 3 tokens, §3). -/
def NGRAM_SIZE : ℕ := 3

/-- Modelled from the spec: MIN_ABSOLUTE_THRESHOLD of the absent
parsers/comporator_config.py (default absolute threshold 60, §4.4). -/
def MIN_ABSOLUTE_THRESHOLD : ℚ := 60

/-- Modelled from the spec: MIN_RELATIVE_THRESHOLD of the absent
parsers/comporator_config.py (default relative threshold 0.9, §4.4). -/
def MIN_RELATIVE_THRESHOLD : ℚ := 9 / 10

/-! ## Lexical Weighting Model: compute_tfidf_weights (lines 49-84) -/

/-- Document record as consumed by compute_tfidf_weights: a dict whose
text lives in one of the fields content / text / title (absent keys are
`none`; `document.get(k, '')` yields `""` for them). -/
structure Doc where
  content : Option String
  text : Option String
  title : Option String
deriving DecidableEq

/-- Field-priority text extraction
`document.get('content','') or document.get('text','') or document.get('title','')`. -/
def docText (d : Doc) : String :=
  pyOrS (pyOrS (d.content.getD "") (d.text.getD "")) (d.title.getD "")

/-- N-gram set of one document as built inside compute_tfidf_weights:
`set(generate_ngrams(preprocess_text(text), NGRAM_SIZE))`. -/
def doc_ngram_set (stop : List String) (d : Doc) : List String :=
  dedupFirst (ngramList stop (preprocess_text (docText d)) NGRAM_SIZE)

/-- Document frequency of an n-gram: the number of documents whose
n-gram set contains it (the specification's `df`). -/
def doc_freq (stop : List String) (docs : List Doc) (g : String) : ℕ :=
  docs.countP (fun d => decide (g ∈ doc_ngram_set stop d))

/-- Counter of per-document n-gram occurrences built by the first loop
of compute_tfidf_weights (`ngram_document_frequency`), modelled as a
multiplicity function, updated once per document with that document's
n-gram set. -/
def tfidf_counter (stop : List String) (docs : List Doc) : String → ℕ :=
  docs.foldl
    (fun c d => fun g =>
      c g + (if g ∈ doc_ngram_set stop d then 1 else 0))
    (fun _ => 0)

/-- compute_tfidf_weights: the dict comprehension
`{g ↦ log(N / (df + 1))}` over the counted grams (absent grams ↦ none).
Noncomputable only because its values live in ℝ via `Real.log`; the
underlying counter `tfidf_counter` is executable. -/
noncomputable def compute_tfidf_weights (stop : List String) (docs : List Doc) :
    String → Option ℝ :=
  fun g =>
    if tfidf_counter stop docs g = 0 then none
    else some (Real.log ((docs.length : ℝ) / ((tfidf_counter stop docs g : ℝ) + 1)))

/-! ## Lexical Matcher: find_matching_posts (content_comparator.py lines 110-194) -/

/-- Telegram post dict as consumed by find_matching_posts: only the keys
`text`, `id`, `date` are read, all through `.get` with default `''`
(absent key ↦ `none`; for `id` the `''` default is modelled as `none`). -/
structure TgDict where
  id : Option ℤ
  text : Option String
  date : Option String
deriving DecidableEq

/-- Habr post dict as stored in the n-gram index: find_matching_posts
reads `habr_post['title']` (mandatory) and `habr_post.get('date', '')`. -/
structure HabrDict where
  title : String
  date : Option String
deriving DecidableEq

/-- Key identifying a Habr post inside find_matching_posts:
`(habr_post['title'], habr_post.get('date', ''))`. -/
abbrev HKey := String × String

/-- The inverted index `habr_ngram_index`: n-gram ↦ list of
(habr post, its n-gram set). -/
abbrev LexIndex := List (String × List (HabrDict × List String))

/-- Tuple stored in `habr_post_to_best_match` (lines 160-168). -/
structure LexMatch where
  title : String
  date : String
  score : ℚ
  tgId : Option ℤ
  tgDate : String
  tgCount : ℕ
  habrCount : ℕ
deriving DecidableEq

/-- Output tuple of find_matching_posts:
`('habr', title, date, telegram_id, telegram_date, score, t_count, h_count)`. -/
structure LexOut where
  source : String
  title : String
  date : String
  tgId : Option ℤ
  tgDate : String
  score : ℚ
  tgCount : ℕ
  habrCount : ℕ
deriving DecidableEq

/-- Similarity score of a pair (lines 137-141): the sum of
`tfidf_weights.get(g, 0)` over the intersection of the two n-gram sets.
The first set is duplicate-free, so each common gram is counted once;
the sum is independent of set iteration order. -/
def simScore (w : String → Option ℚ) (tgSet habrSet : List String) : ℚ :=
  ((tgSet.filter (fun g => g ∈ habrSet)).map (fun g => (w g).getD 0)).sum

/-- The key under which find_matching_posts identifies a Habr post
(line 134): `(habr_post['title'], habr_post.get('date', ''))` — nothing
else of the post enters the key. -/
def habrKey (h : HabrDict) : HKey :=
  (h.title, h.date.getD "")

/-- Inner update of `current_telegram_matches` (lines 133-146) for one
(habr post, n-gram set) entry of the index list. -/
def lexScanPairStep (w : String → Option ℚ) (tgSet : List String) (tg : TgDict)
    (cur : List (HKey × (TgDict × ℚ))) (pr : HabrDict × List String) :
    List (HKey × (TgDict × ℚ)) :=
  let key : HKey := habrKey pr.1
  let score := simScore w tgSet pr.2
  match dget cur key with
  | none => dset cur key (tg, score)
  | some prev => if prev.2 < score then dset cur key (tg, score) else cur

/-- One iteration of `for ngram in telegram_post_ngrams` (lines 131-146).
The second state component reproduces Python's leaked loop variable
`habr_post_ngrams`: after the loop it holds the n-gram set of the last
(habr post, set) pair iterated, and lines 150 and 167 read it outside
the loop that bound it. -/
def lexScanNgramStep (idx : LexIndex) (w : String → Option ℚ)
    (tgSet : List String) (tg : TgDict)
    (acc : List (HKey × (TgDict × ℚ)) × List String) (g : String) :
    List (HKey × (TgDict × ℚ)) × List String :=
  match dget idx g with
  | none => acc
  | some lst =>
    (lst.foldl (lexScanPairStep w tgSet tg) acc.1,
     match lst.getLast? with
     | some pr => pr.2
     | none => acc.2)

/-- The threshold test of line 156: `score >= similarity_threshold` with
`similarity_threshold = max(MIN_ABSOLUTE_THRESHOLD,
MIN_RELATIVE_THRESHOLD * min_ngrams_count)`. -/
def passes_threshold (score : ℚ) (minNgramsCount : ℕ) : Bool :=
  decide (max MIN_ABSOLUTE_THRESHOLD
    (MIN_RELATIVE_THRESHOLD * (minNgramsCount : ℚ)) ≤ score)

/-- The tuple written into `habr_post_to_best_match` (lines 160-168). -/
def mkLexMatch (key : HKey) (tg : TgDict) (score : ℚ)
    (tgCount habrCount : ℕ) : LexMatch :=
  ⟨key.1, key.2, score, tg.id, tg.date.getD "", tgCount, habrCount⟩

/-- One iteration of the filter loop (lines 149-168).  `tgCount` is
`len(telegram_post_ngrams)`; `habrCount` is `len(habr_post_ngrams)` for
the leaked loop variable — the same stale value for every entry. -/
def lexFilterStep (tgCount habrCount : ℕ)
    (best : List (HKey × LexMatch)) (e : HKey × (TgDict × ℚ)) :
    List (HKey × LexMatch) :=
  if passes_threshold e.2.2 (min tgCount habrCount) then
    match dget best e.1 with
    | none => dset best e.1 (mkLexMatch e.1 e.2.1 e.2.2 tgCount habrCount)
    | some r =>
      if r.score < e.2.2 then
        dset best e.1 (mkLexMatch e.1 e.2.1 e.2.2 tgCount habrCount)
      else best
  else best

/-- One iteration of `for telegram_post in telegram_posts`
(lines 124-168), threading `habr_post_to_best_match` and the leaked
`habr_post_ngrams` variable. -/
def lexTgStep (stop : List String) (idx : LexIndex) (w : String → Option ℚ)
    (n : ℕ) (st : List (HKey × LexMatch) × List String) (tg : TgDict) :
    List (HKey × LexMatch) × List String :=
  let tgSet := dedupFirst (ngramList stop (preprocess_text (tg.text.getD "")) n)
  let scanned := tgSet.foldl (lexScanNgramStep idx w tgSet tg) ([], st.2)
  (scanned.1.foldl (lexFilterStep tgSet.length scanned.2.length) st.1, scanned.2)

/-- The emitted tuple of lines 182-191: the stored match prefixed with
the source tag `'habr'`. -/
def lexMatchToOut (r : LexMatch) : LexOut :=
  ⟨"habr", r.title, r.date, r.tgId, r.tgDate, r.score, r.tgCount, r.habrCount⟩

/-- One iteration of the uniqueness loop (lines 177-192): skip a match
whose telegram id is already used, else emit it and claim the id. -/
def lexUniqueStep (st : List LexOut × List (Option ℤ)) (r : LexMatch) :
    List LexOut × List (Option ℤ) :=
  if r.tgId ∈ st.2 then st
  else (st.1 ++ [lexMatchToOut r], st.2 ++ [r.tgId])

/-- find_matching_posts: per-telegram scan into `habr_post_to_best_match`,
stable sort of its values by descending score (Python's stable `sorted`
with key `-score` sorts under the precedence `b.score ≤ a.score`), then
the greedy uniqueness pass over telegram ids.  The window size is taken
as a natural number; every call site of the source uses the positive
NGRAM_SIZE (see the generate_ngrams theorems). -/
def find_matching_posts (stop : List String) (tgs : List TgDict)
    (idx : LexIndex) (w : String → Option ℚ) (n : ℕ) : List LexOut :=
  let bestMap := (tgs.foldl (lexTgStep stop idx w n) ([], [])).1
  let sortedMatches :=
    sortStable (fun a b => decide (b.score ≤ a.score))
      (bestMap.map (fun e => e.2))
  (sortedMatches.foldl lexUniqueStep ([], [])).1

/-- The acceptance predicate exactly as the specification states it for
claim C1: `score ≥ max(ABS, REL × min(|set_tg|, |set_habr|))` where the
two sizes are those of the specific pair being tested. -/
def claim_accepts (score : ℚ) (tgCount habrCount : ℕ) : Bool :=
  decide (max MIN_ABSOLUTE_THRESHOLD
    (MIN_RELATIVE_THRESHOLD * ((min tgCount habrCount : ℕ) : ℚ)) ≤ score)

/-! ## Post models (src/models/post_models.py) -/

/-- TelegramPostModel dataclass. -/
structure TelegramPostModel where
  id : ℤ
  date : String
  content : String
  views : Option ℤ
  media : Bool
  is_forward : Bool
  post_url : String
deriving DecidableEq, Inhabited

/-- HabrPostModel dataclass. -/
structure HabrPostModel where
  title : String
  date : String
  content : String
  post_url : String
deriving DecidableEq, Inhabited

/-- PikabuPostModel dataclass: carries `rating`, but no `views` field. -/
structure PikabuPostModel where
  id : ℤ
  title : String
  date : String
  content : String
  rating : String
  post_url : String
  url_profile : String
deriving DecidableEq, Inhabited

/-- Python `hasattr(post, 'views')` for TelegramPostModel. -/
def teleHasViews (_ : TelegramPostModel) : Bool := true

/-- Python `post.views or 0` for TelegramPostModel (`views` is
`Optional[int]`; `None` and `0` both collapse to `0`). -/
def teleViewsOr0 (p : TelegramPostModel) : ℤ := p.views.getD 0

/-- Python `hasattr(post, 'views')` for PikabuPostModel: always false. -/
def pikaHasViews (_ : PikabuPostModel) : Bool := false

/-- Views fallback for PikabuPostModel (never read, since hasattr fails). -/
def pikaViewsOr0 (_ : PikabuPostModel) : ℤ := 0

/-! ## Semantic Deduplicator: PostMatcher.remove_duplicates
(content_comporator_bert.py lines 74-112).  `sim p q` stands for
`cosine_similarity(embed(p), embed(q))`, a deterministic function of the
two posts per the Embedding Provider contract. -/

/-- Default `threshold_duplicate_` of PostMatcher (0.9). -/
def threshold_duplicate_default : ℚ := 9 / 10

/-- Default `threshold_match_` of PostMatcher (0.65). -/
def threshold_match_default : ℚ := 13 / 20

/-- Body of the inner loop `for j in range(i + 1, len(posts))`
(lines 94-104): skip seen posts; on similarity above the duplicate
threshold, move the representative to `j` when both posts carry a
`views` attribute and `j`'s views are strictly larger, and mark `j`
seen. -/
def dedupInnerStep {α : Type} [Inhabited α] (sim : α → α → ℚ) (thr : ℚ)
    (hasViewsAttr : α → Bool) (viewsOr0 : α → ℤ) (posts : List α) (i : ℕ)
    (acc : ℕ × List ℕ) (j : ℕ) : ℕ × List ℕ :=
  if j ∈ acc.2 then acc
  else if thr < sim (posts.getD i default) (posts.getD j default) then
    let bestIdx :=
      if hasViewsAttr (posts.getD j default) = true ∧
         hasViewsAttr (posts.getD acc.1 default) = true ∧
         viewsOr0 (posts.getD acc.1 default) < viewsOr0 (posts.getD j default)
      then j
      else acc.1
    (bestIdx, sadd acc.2 j)
  else acc

/-- Body of the outer loop `for i, post in enumerate(posts)`
(lines 89-109): skip seen indices, scan later posts for the cluster,
append the representative `posts[best_idx]` (the bound check
`best_idx < len(posts)` of line 107 is kept) and mark it seen. -/
def dedupOuterStep {α : Type} [Inhabited α] (sim : α → α → ℚ) (thr : ℚ)
    (hasViewsAttr : α → Bool) (viewsOr0 : α → ℤ) (posts : List α)
    (st : List α × List ℕ) (i : ℕ) : List α × List ℕ :=
  if i ∈ st.2 then st
  else
    let inner := (List.range' (i + 1) (posts.length - (i + 1))).foldl
      (dedupInnerStep sim thr hasViewsAttr viewsOr0 posts i) (i, st.2)
    if inner.1 < posts.length then
      (st.1 ++ [posts.getD inner.1 default], sadd inner.2 inner.1)
    else (st.1, inner.2)

/-- PostMatcher.remove_duplicates. -/
def remove_duplicates {α : Type} [Inhabited α] (sim : α → α → ℚ) (thr : ℚ)
    (hasViewsAttr : α → Bool) (viewsOr0 : α → ℤ) (posts : List α) : List α :=
  ((List.range posts.length).foldl
    (dedupOuterStep sim thr hasViewsAttr viewsOr0 posts) ([], [])).1

/-! ## Semantic Cross-Source Matcher: PostMatcher.match_all_posts
(content_comporator_bert.py lines 114-209). -/

/-- The candidate update test of lines 161 and 173:
`score > best_score and score >= self.threshold_match`. -/
def match_accepts (score best thr : ℚ) : Bool :=
  decide (best < score) && decide (thr ≤ score)

/-- Body of the best-candidate scan loop (lines 157-164 / 169-176):
skip claimed indices, update the best candidate when the score beats
the current best and meets the match threshold. -/
def pickBestStep {β : Type} (simTo : β → ℚ) (thr : ℚ) (used : List ℕ)
    (acc : Option (β × ℕ) × ℚ) (e : ℕ × β) : Option (β × ℕ) × ℚ :=
  if e.1 ∈ used then acc
  else
    if match_accepts (simTo e.2) acc.2 thr then (some (e.2, e.1), simTo e.2)
    else acc

/-- The best-candidate scan of lines 154-164 (and 166-176): fold over
the enumerated candidate list (score initialized to 0, post to None). -/
def pickBest {β : Type} (simTo : β → ℚ) (thr : ℚ) (used : List ℕ)
    (cands : List β) : Option (β × ℕ) × ℚ :=
  cands.enum.foldl (pickBestStep simTo thr used) (none, 0)

/-- The matched-post dict built at lines 179-192, with the
`best_telegram_index` / `best_pikabu_index` bookkeeping of lines
193-196 carried as the two index fields. -/
structure MatchRecB where
  habr_title : String
  habr_date : String
  habr_content : String
  telegram_url : Option String
  telegram_date : Option String
  telegram_content : Option String
  telegram_similarity : ℚ
  pikabu_title : Option String
  pikabu_date : Option String
  pikabu_url : Option String
  pikabu_content : Option String
  pikabu_similarity : ℚ
  telegram_index : Option ℕ
  pikabu_index : Option ℕ
deriving DecidableEq

/-- State of the matching loop:
(matched_habr, unmatched_habr, used_telegram, used_pikabu). -/
abbrev SemState :=
  List MatchRecB × List HabrPostModel × List ℕ × List ℕ

/-- Record construction and claim bookkeeping of lines 178-198, given
the two best-candidate scan results. -/
def semBuild (st : SemState) (h : HabrPostModel)
    (bt : Option (TelegramPostModel × ℕ) × ℚ)
    (bp : Option (PikabuPostModel × ℕ) × ℚ) : SemState :=
  if bt.1.isSome || bp.1.isSome then
    (st.1 ++ [⟨h.title, h.date, h.content,
        bt.1.map (fun e => e.1.post_url),
        bt.1.map (fun e => e.1.date),
        bt.1.map (fun e => e.1.content),
        (if bt.1.isSome then bt.2 else 0),
        bp.1.map (fun e => e.1.title),
        bp.1.map (fun e => e.1.date),
        bp.1.map (fun e => e.1.post_url),
        bp.1.map (fun e => e.1.content),
        (if bp.1.isSome then bp.2 else 0),
        bt.1.map (fun e => e.2),
        bp.1.map (fun e => e.2)⟩],
     st.2.1,
     st.2.2.1 ++ (bt.1.map (fun e => e.2)).toList,
     st.2.2.2 ++ (bp.1.map (fun e => e.2)).toList)
  else
    (st.1, st.2.1 ++ [h], st.2.2.1, st.2.2.2)

/-- One iteration of `for i, habr_post in enumerate(habr_posts)`
(lines 151-198). -/
def semMatchStep (thrMatch : ℚ)
    (simHT : HabrPostModel → TelegramPostModel → ℚ)
    (simHP : HabrPostModel → PikabuPostModel → ℚ)
    (tele : List TelegramPostModel) (pika : List PikabuPostModel)
    (st : SemState) (h : HabrPostModel) : SemState :=
  semBuild st h (pickBest (simHT h) thrMatch st.2.2.1 tele)
    (pickBest (simHP h) thrMatch st.2.2.2 pika)

/-- PostMatcher.match_all_posts: deduplicate the telegram and pikabu
inputs, run the greedy per-habr-post matching, and emit
(matched, unmatched habr, unmatched telegram, unmatched pikabu). -/
def match_all_posts (thrDup thrMatch : ℚ)
    (simTT : TelegramPostModel → TelegramPostModel → ℚ)
    (simPP : PikabuPostModel → PikabuPostModel → ℚ)
    (simHT : HabrPostModel → TelegramPostModel → ℚ)
    (simHP : HabrPostModel → PikabuPostModel → ℚ)
    (habr : List HabrPostModel) (tele : List TelegramPostModel)
    (pika : List PikabuPostModel) :
    List MatchRecB × List HabrPostModel × List TelegramPostModel ×
      List PikabuPostModel :=
  let teleD := remove_duplicates simTT thrDup teleHasViews teleViewsOr0 tele
  let pikaD := remove_duplicates simPP thrDup pikaHasViews pikaViewsOr0 pika
  let fin := habr.foldl (semMatchStep thrMatch simHT simHP teleD pikaD)
    ([], [], [], [])
  (fin.1, fin.2.1,
   (teleD.enum.filter (fun e => e.1 ∉ fin.2.2.1)).map (fun e => e.2),
   (pikaD.enum.filter (fun e => e.1 ∉ fin.2.2.2)).map (fun e => e.2))

/-- Deduplication as the specification words claim C10: each similarity
cluster keeps its earliest-index post (the cluster seed) as
representative, with no engagement-based reselection.  Used as the
reference side of the refinement statement for posts without a `views`
attribute. -/
def dedupSeedSeenStep {α : Type} [Inhabited α] (sim : α → α → ℚ) (thr : ℚ)
    (posts : List α) (i : ℕ) (s : List ℕ) (j : ℕ) : List ℕ :=
  if j ∈ s then s
  else if thr < sim (posts.getD i default) (posts.getD j default) then sadd s j
  else s

/-- Outer step of the seed-keeping deduplication: collect the cluster of
index `i` into the seen set and keep `posts[i]` itself, the earliest
index of the cluster, as representative. -/
def keepFirstStep {α : Type} [Inhabited α] (sim : α → α → ℚ) (thr : ℚ)
    (posts : List α) (st : List α × List ℕ) (i : ℕ) : List α × List ℕ :=
  if i ∈ st.2 then st
  else
    (st.1 ++ [posts.getD i default],
     sadd ((List.range' (i + 1) (posts.length - (i + 1))).foldl
       (dedupSeedSeenStep sim thr posts i) st.2) i)

/-- Seed-keeping deduplication (reference definition for claim C10). -/
def removeDuplicatesKeepFirst {α : Type} [Inhabited α] (sim : α → α → ℚ)
    (thr : ℚ) (posts : List α) : List α :=
  ((List.range posts.length).foldl (keepFirstStep sim thr posts) ([], [])).1

/-! ## Proof-side invariant definitions -/

/-- Invariant of `habr_post_to_best_match`: its keys are pairwise
distinct (a Python dict), and every stored match carries the title and
date of its own key. -/
def LexInv (b : List (HKey × LexMatch)) : Prop :=
  (b.map Prod.fst).Nodup ∧ ∀ e ∈ b, (e.2.title, e.2.date) = e.1

/-- Invariant of the matching loop: the claimed counterpart indices of
the emitted records are pairwise distinct and recorded in the used
sets. -/
def SemInv (st : SemState) : Prop :=
  (st.1.filterMap (fun r => r.telegram_index)).Nodup ∧
  (∀ x ∈ st.1.filterMap (fun r => r.telegram_index), x ∈ st.2.2.1) ∧
  (st.1.filterMap (fun r => r.pikabu_index)).Nodup ∧
  (∀ x ∈ st.1.filterMap (fun r => r.pikabu_index), x ∈ st.2.2.2)

/-- Invariant of the seed-keeping deduplication loop after the first
`k` indices were processed: the output so far is the image of a list of
kept indices, all below `k`, pairwise dissimilar, and each kept index
has already cleared (found dissimilar) every still-unseen index ≥ k. -/
def KFInv {α : Type} [Inhabited α] (sim : α → α → ℚ) (thr : ℚ)
    (posts : List α) (k : ℕ) (st : List α × List ℕ) : Prop :=
  ∃ kept : List ℕ,
    st.1 = kept.map (fun p => posts.getD p default) ∧
    (∀ p ∈ kept, p < k) ∧
    kept.Pairwise (fun p q =>
      ¬ thr < sim (posts.getD p default) (posts.getD q default)) ∧
    (∀ p ∈ kept, ∀ j : ℕ, j < posts.length → j ∉ st.2 → k ≤ j →
      ¬ thr < sim (posts.getD p default) (posts.getD j default))

/-! ## Concrete sample inputs used by the claim theorems -/

/-- Scenario posts of claim C7: three near-identical Telegram posts
with views 10, 50 and 5. -/
def c7_post1 : TelegramPostModel :=
  ⟨1, "2024-01-01", "release announcement a", some 10, false, false, "t.me/1"⟩

/-- Second C7 scenario post (views 50). -/
def c7_post2 : TelegramPostModel :=
  ⟨2, "2024-01-02", "release announcement b", some 50, false, false, "t.me/2"⟩

/-- Third C7 scenario post (views 5). -/
def c7_post3 : TelegramPostModel :=
  ⟨3, "2024-01-03", "release announcement c", some 5, false, false, "t.me/3"⟩

/-- Pairwise similarity 0.95 between all C7 scenario posts. -/
def c7_sim : TelegramPostModel → TelegramPostModel → ℚ := fun _ _ => 19 / 20

/-- Telegram posts of the C3 counterexample, with views 1, 2 and 0. -/
def c3_postA : TelegramPostModel :=
  ⟨1, "2024-01-01", "a", some 1, false, false, "t.me/a"⟩

/-- Second C3 counterexample post (views 2). -/
def c3_postB : TelegramPostModel :=
  ⟨2, "2024-01-02", "b", some 2, false, false, "t.me/b"⟩

/-- Third C3 counterexample post (views 0). -/
def c3_postC : TelegramPostModel :=
  ⟨3, "2024-01-03", "c", some 0, false, false, "t.me/c"⟩

/-- Similarity of the C3 counterexample: posts a/b and b/c are similar
(0.95, above the 0.9 duplicate threshold), posts a/c are not (0.5). -/
def c3_sim : TelegramPostModel → TelegramPostModel → ℚ := fun p q =>
  if (p.content = "a" ∧ q.content = "c") ∨ (p.content = "c" ∧ q.content = "a")
  then 1 / 2 else 19 / 20

/-- Sample Pikabu posts (no views attribute) for the no-views witnesses. -/
def pk1 : PikabuPostModel :=
  ⟨1, "T1", "2024-01-01", "a", "10", "pikabu/1", "author/1"⟩

/-- Second sample Pikabu post. -/
def pk2 : PikabuPostModel :=
  ⟨2, "T2", "2024-01-02", "b", "20", "pikabu/2", "author/2"⟩

/-- Third sample Pikabu post. -/
def pk3 : PikabuPostModel :=
  ⟨3, "T3", "2024-01-03", "c", "5", "pikabu/3", "author/3"⟩

/-- Similarity for the Pikabu samples: a/b and b/c similar, a/c not. -/
def pkSim : PikabuPostModel → PikabuPostModel → ℚ := fun p q =>
  if (p.content = "a" ∧ q.content = "c") ∨ (p.content = "c" ∧ q.content = "a")
  then 1 / 2 else 19 / 20

/-- First Habr dict of the C1 failing input; its n-gram set is the
singleton c1_set1. -/
def c1_habr1 : HabrDict := ⟨"Habr post one", some "2024-01-01"⟩

/-- Second Habr dict of the C1 failing input; its n-gram set is the
67-element c1_set2, and it is the last entry of every index list. -/
def c1_habr2 : HabrDict := ⟨"Habr post two", some "2024-01-02"⟩

/-- N-gram set of c1_habr1: just the shared gram `x`. -/
def c1_set1 : List String := ["x"]

/-- N-gram set of c1_habr2: `x` plus 66 grams private to it. -/
def c1_set2 : List String :=
  "x" :: (List.range 66).map (fun i => "h" ++ toString i)

/-- Inverted index of the C1 failing input.  Every list ends with
(c1_habr2, c1_set2), so the leaked loop variable holds c1_set2 after
the scan regardless of set iteration order. -/
def c1_index : LexIndex :=
  c1_set2.map (fun g =>
    (g, if g = "x" then [(c1_habr1, c1_set1), (c1_habr2, c1_set2)]
        else [(c1_habr2, c1_set2)]))

/-- Telegram post of the C1 failing input: 67 distinct unigrams, of
which only `x` occurs in the index. -/
def c1_tg : TgDict :=
  ⟨some 7,
   some (String.intercalate " "
     ("x" :: (List.range 66).map (fun i => "t" ++ toString i))),
   some "2024-02-01"⟩

/-- IDF weights of the C1 failing input: the shared gram weighs 60. -/
def c1_weights : String → Option ℚ := fun g => if g = "x" then some 60 else none

/-- The telegram n-gram set computed by find_matching_posts at the C1
failing input (window size 1). -/
def c1_tgSet : List String :=
  dedupFirst (ngramList [] (preprocess_text (c1_tg.text.getD "")) 1)

/-! ## Helper lemmas about the dict model -/

lemma dset_keys_nodup {K V : Type} [DecidableEq K] (d : List (K × V)) (k : K)
    (v : V) (h : (d.map Prod.fst).Nodup) :
    ((dset d k v).map Prod.fst).Nodup := by
  unfold dset
  by_cases hf : (d.find? (fun e => e.1 = k)).isSome
  · rw [if_pos hf, List.map_map]
    have : d.map (Prod.fst ∘ fun e => if e.1 = k then (k, v) else e)
        = d.map Prod.fst := by
      apply List.map_congr_left
      intro a _
      by_cases ha : a.1 = k <;> simp [ha]
    rw [this]; exact h
  · rw [if_neg hf, List.map_append]
    have hnone : d.find? (fun e => e.1 = k) = none :=
      Option.not_isSome_iff_eq_none.1 hf
    have hnk : ∀ e ∈ d, e.1 ≠ k := by
      intro e he
      have := List.find?_eq_none.1 hnone e he
      simpa using this
    refine List.Nodup.append h (by simp) ?_
    intro x hx hx2
    rcases List.mem_map.1 hx with ⟨e, he, rfl⟩
    simp only [List.map_cons, List.map_nil, List.mem_singleton] at hx2
    exact hnk e he hx2

lemma mem_dset {K V : Type} [DecidableEq K] {d : List (K × V)} {k : K}
    {v : V} {e : K × V} (he : e ∈ dset d k v) : e ∈ d ∨ e = (k, v) := by
  unfold dset at he
  by_cases hf : (d.find? (fun e => e.1 = k)).isSome
  · rw [if_pos hf] at he
    rcases List.mem_map.1 he with ⟨a, ha, rfl⟩
    by_cases hak : a.1 = k
    · right; simp [hak]
    · left; simpa [hak] using ha
  · rw [if_neg hf] at he
    rcases List.mem_append.1 he with h1 | h1
    · exact Or.inl h1
    · right; simpa using h1

/-! ## Permutation lemmas for the stable sort -/

lemma insertStable_perm {γ : Type} (le : γ → γ → Bool) (x : γ)
    (l : List γ) : (insertStable le x l).Perm (x :: l) := by
  induction l with
  | nil => exact List.Perm.refl _
  | cons y ys ih =>
    unfold insertStable
    split
    · exact (ih.cons y).trans (List.Perm.swap x y ys)
    · exact List.Perm.refl _

lemma sortStable_fold_perm {γ : Type} (le : γ → γ → Bool) (l : List γ) :
    ∀ acc : List γ,
      (l.foldl (fun acc x => insertStable le x acc) acc).Perm (acc ++ l) := by
  induction l with
  | nil => intro acc; simp
  | cons x t ih =>
    intro acc
    rw [List.foldl_cons]
    have h1 := ih (insertStable le x acc)
    have h2 : (insertStable le x acc ++ t).Perm (x :: (acc ++ t)) :=
      (insertStable_perm le x acc).append_right t
    have h4 : (acc ++ x :: t).Perm (x :: (acc ++ t)) := List.perm_middle
    exact (h1.trans h2).trans h4.symm

lemma sortStable_perm {γ : Type} (le : γ → γ → Bool) (l : List γ) :
    (sortStable le l).Perm l := by
  have h := sortStable_fold_perm le l []
  simpa [sortStable] using h

/-! ## One-to-one lemmas for the lexical matcher -/

lemma lexFilterStep_inv (tc hc : ℕ) (b : List (HKey × LexMatch))
    (e : HKey × (TgDict × ℚ)) (hb : LexInv b) :
    LexInv (lexFilterStep tc hc b e) := by
  unfold lexFilterStep
  have hset : LexInv (dset b e.1 (mkLexMatch e.1 e.2.1 e.2.2 tc hc)) := by
    constructor
    · exact dset_keys_nodup b e.1 _ hb.1
    · intro x hx
      rcases mem_dset hx with h1 | h1
      · exact hb.2 x h1
      · subst h1; rfl
  split
  · cases hd : dget b e.1 with
    | none => simpa [hd] using hset
    | some r =>
      simp only [hd]
      split
      · exact hset
      · exact hb
  · exact hb

lemma foldl_lexFilterStep_inv (tc hc : ℕ)
    (l : List (HKey × (TgDict × ℚ))) :
    ∀ b : List (HKey × LexMatch), LexInv b →
      LexInv (l.foldl (lexFilterStep tc hc) b) := by
  induction l with
  | nil => intro b hb; exact hb
  | cons e t ih =>
    intro b hb
    exact ih _ (lexFilterStep_inv tc hc b e hb)

lemma lexTgStep_inv (stop : List String) (idx : LexIndex)
    (w : String → Option ℚ) (n : ℕ)
    (st : List (HKey × LexMatch) × List String) (tg : TgDict)
    (hb : LexInv st.1) : LexInv (lexTgStep stop idx w n st tg).1 := by
  unfold lexTgStep
  exact foldl_lexFilterStep_inv _ _ _ st.1 hb

lemma bestMap_inv (stop : List String) (idx : LexIndex)
    (w : String → Option ℚ) (n : ℕ) (tgs : List TgDict) :
    ∀ st : List (HKey × LexMatch) × List String, LexInv st.1 →
      LexInv (tgs.foldl (lexTgStep stop idx w n) st).1 := by
  induction tgs with
  | nil => intro st hb; exact hb
  | cons tg t ih =>
    intro st hb
    exact ih _ (lexTgStep_inv stop idx w n st tg hb)

lemma lexUniqueStep_mem (out : List LexOut) (used : List (Option ℤ))
    (r : LexMatch) (hr : r.tgId ∈ used) :
    lexUniqueStep (out, used) r = (out, used) := by
  unfold lexUniqueStep; rw [if_pos hr]

lemma lexUniqueStep_new (out : List LexOut) (used : List (Option ℤ))
    (r : LexMatch) (hr : r.tgId ∉ used) :
    lexUniqueStep (out, used) r
      = (out ++ [lexMatchToOut r], used ++ [r.tgId]) := by
  unfold lexUniqueStep; rw [if_neg hr]

lemma lexUnique_out (l : List LexMatch) :
    ∀ (out : List LexOut) (used : List (Option ℤ)),
      ∃ l2 : List LexMatch,
        (l.foldl lexUniqueStep (out, used)).1 = out ++ l2.map lexMatchToOut ∧
        l2.Sublist l := by
  induction l with
  | nil => intro out used; exact ⟨[], by simp, List.Sublist.refl []⟩
  | cons r t ih =>
    intro out used
    rw [List.foldl_cons]
    by_cases hr : r.tgId ∈ used
    · rw [lexUniqueStep_mem out used r hr]
      rcases ih out used with ⟨l2, h1, h2⟩
      exact ⟨l2, h1, h2.cons r⟩
    · rw [lexUniqueStep_new out used r hr]
      rcases ih (out ++ [lexMatchToOut r]) (used ++ [r.tgId]) with ⟨l2, h1, h2⟩
      refine ⟨r :: l2, ?_, h2.cons₂ r⟩
      simpa [List.append_assoc] using h1

lemma lexUnique_tgIds (l : List LexMatch) :
    ∀ (out : List LexOut) (used : List (Option ℤ)),
      (out.map (fun o => o.tgId)).Nodup →
      (∀ o ∈ out, o.tgId ∈ used) →
      (((l.foldl lexUniqueStep (out, used)).1).map (fun o => o.tgId)).Nodup := by
  induction l with
  | nil => intro out used h1 _; exact h1
  | cons r t ih =>
    intro out used h1 h2
    rw [List.foldl_cons]
    by_cases hr : r.tgId ∈ used
    · rw [lexUniqueStep_mem out used r hr]; exact ih out used h1 h2
    · rw [lexUniqueStep_new out used r hr]
      apply ih
      · rw [List.map_append]
        refine List.Nodup.append h1 (by simp) ?_
        intro x hx hx2
        simp only [List.map_cons, List.map_nil, List.mem_singleton] at hx2
        rcases List.mem_map.1 hx with ⟨o, ho, rfl⟩
        simp only [lexMatchToOut] at hx2
        exact hr (hx2 ▸ h2 o ho)
      · intro o ho
        rcases List.mem_append.1 ho with h3 | h3
        · exact List.mem_append.2 (Or.inl (h2 o h3))
        · simp only [List.mem_singleton] at h3
          subst h3
          simp [lexMatchToOut]

/-- In the output of find_matching_posts the habr keys (title, date) are
pairwise distinct: each Habr key yields at most one match record. -/
lemma find_matching_posts_keys_nodup (stop : List String) (tgs : List TgDict)
    (idx : LexIndex) (w : String → Option ℚ) (n : ℕ) :
    ((find_matching_posts stop tgs idx w n).map
      (fun o => (o.title, o.date))).Nodup := by
  unfold find_matching_posts
  have hInv : LexInv (tgs.foldl (lexTgStep stop idx w n) ([], [])).1 :=
    bestMap_inv stop idx w n tgs ([], []) ⟨by simp, by simp⟩
  set M := (tgs.foldl (lexTgStep stop idx w n) ([], [])).1 with hM
  have hkeys : ((M.map (fun e => e.2)).map
      (fun r => (r.title, r.date))) = M.map Prod.fst := by
    rw [List.map_map]
    apply List.map_congr_left
    intro e he
    exact hInv.2 e he
  have h1 : ((M.map (fun e => e.2)).map (fun r => (r.title, r.date))).Nodup := by
    rw [hkeys]; exact hInv.1
  set sorted := sortStable (fun a b => decide (b.score ≤ a.score))
    (M.map (fun e => e.2)) with hs
  have hperm : (sorted.map (fun r => (r.title, r.date))).Perm
      ((M.map (fun e => e.2)).map (fun r => (r.title, r.date))) :=
    (sortStable_perm _ _).map _
  have h2 : (sorted.map (fun r => (r.title, r.date))).Nodup :=
    hperm.symm.nodup h1
  rcases lexUnique_out sorted [] [] with ⟨l2, hout, hsub⟩
  rw [hout]
  have h3 : ((l2.map lexMatchToOut).map (fun o => (o.title, o.date)))
      = l2.map (fun r => (r.title, r.date)) := by
    rw [List.map_map]; rfl
  simp only [List.nil_append, h3]
  exact (hsub.map (fun r => (r.title, r.date))).nodup h2

/-- In the output of find_matching_posts the telegram ids are pairwise
distinct: no telegram post is claimed by two match records. -/
lemma find_matching_posts_tgIds_nodup (stop : List String) (tgs : List TgDict)
    (idx : LexIndex) (w : String → Option ℚ) (n : ℕ) :
    ((find_matching_posts stop tgs idx w n).map (fun o => o.tgId)).Nodup := by
  unfold find_matching_posts
  apply lexUnique_tgIds
  · simp
  · intro o ho; simp at ho

/-! ## One-to-one lemmas for the semantic matcher -/

lemma pickBest_fold_not_used {β : Type} (simTo : β → ℚ) (thr : ℚ)
    (used : List ℕ) (l : List (ℕ × β)) :
    ∀ acc : Option (β × ℕ) × ℚ,
      (∀ q : β × ℕ, acc.1 = some q → q.2 ∉ used) →
      ∀ q : β × ℕ,
        (l.foldl (pickBestStep simTo thr used) acc).1 = some q → q.2 ∉ used := by
  induction l with
  | nil => intro acc hacc q hq; exact hacc q hq
  | cons e t ih =>
    intro acc hacc q
    rw [List.foldl_cons]
    apply ih
    intro q2 hq2
    unfold pickBestStep at hq2
    by_cases he : e.1 ∈ used
    · rw [if_pos he] at hq2; exact hacc q2 hq2
    · rw [if_neg he] at hq2
      by_cases hm : match_accepts (simTo e.2) acc.2 thr = true
      · rw [if_pos hm] at hq2
        simp only [Option.some_inj] at hq2
        subst hq2
        exact he
      · rw [if_neg hm] at hq2; exact hacc q2 hq2

lemma pickBest_not_used {β : Type} (simTo : β → ℚ) (thr : ℚ)
    (used : List ℕ) (cands : List β) (q : β × ℕ)
    (h : (pickBest simTo thr used cands).1 = some q) : q.2 ∉ used := by
  exact pickBest_fold_not_used simTo thr used cands.enum (none, 0)
    (by intro q2 hq2; simp at hq2) q h

lemma nodup_extend {old used : List ℕ} (o : Option ℕ) (hn : old.Nodup)
    (hs : ∀ x ∈ old, x ∈ used) (ho : ∀ j : ℕ, o = some j → j ∉ used) :
    (old ++ o.toList).Nodup ∧
      ∀ x ∈ old ++ o.toList, x ∈ used ++ o.toList := by
  cases o with
  | none =>
    constructor
    · simpa using hn
    · intro x hx
      simp only [Option.toList_none, List.append_nil] at hx ⊢
      exact hs x hx
  | some j =>
    have hj : j ∉ used := ho j rfl
    constructor
    · refine List.Nodup.append hn (by simp) ?_
      intro x hx hx2
      simp only [Option.toList_some, List.mem_singleton] at hx2
      subst hx2
      exact hj (hs x hx)
    · intro x hx
      rcases List.mem_append.1 hx with h1 | h1
      · exact List.mem_append.2 (Or.inl (hs x h1))
      · exact List.mem_append.2 (Or.inr h1)

lemma filterMap_singleton_toList {γ δ : Type} (f : γ → Option δ) (a : γ) :
    List.filterMap f [a] = (f a).toList := by
  cases h : f a <;> simp [List.filterMap, h]

lemma semBuild_inv (st : SemState) (h : HabrPostModel)
    (bt : Option (TelegramPostModel × ℕ) × ℚ)
    (bp : Option (PikabuPostModel × ℕ) × ℚ) (hInv : SemInv st)
    (hbt : ∀ q : TelegramPostModel × ℕ, bt.1 = some q → q.2 ∉ st.2.2.1)
    (hbp : ∀ q : PikabuPostModel × ℕ, bp.1 = some q → q.2 ∉ st.2.2.2) :
    SemInv (semBuild st h bt bp) := by
  rcases hInv with ⟨n1, s1, n2, s2⟩
  unfold semBuild
  split
  · have htg : ∀ j : ℕ, bt.1.map (fun e => e.2) = some j → j ∉ st.2.2.1 := by
      intro j hj
      rcases Option.map_eq_some'.1 hj with ⟨q, hq, rfl⟩
      exact hbt q hq
    have hpk : ∀ j : ℕ, bp.1.map (fun e => e.2) = some j → j ∉ st.2.2.2 := by
      intro j hj
      rcases Option.map_eq_some'.1 hj with ⟨q, hq, rfl⟩
      exact hbp q hq
    have e1 := nodup_extend (bt.1.map (fun e => e.2)) n1 s1 htg
    have e2 := nodup_extend (bp.1.map (fun e => e.2)) n2 s2 hpk
    refine ⟨?_, ?_, ?_, ?_⟩
    · simpa [List.filterMap_append, filterMap_singleton_toList] using e1.1
    · simpa [List.filterMap_append, filterMap_singleton_toList] using e1.2
    · simpa [List.filterMap_append, filterMap_singleton_toList] using e2.1
    · simpa [List.filterMap_append, filterMap_singleton_toList] using e2.2
  · exact ⟨n1, s1, n2, s2⟩

lemma semFold_inv (thrMatch : ℚ)
    (simHT : HabrPostModel → TelegramPostModel → ℚ)
    (simHP : HabrPostModel → PikabuPostModel → ℚ)
    (tele : List TelegramPostModel) (pika : List PikabuPostModel)
    (habr : List HabrPostModel) :
    ∀ st : SemState, SemInv st →
      SemInv (habr.foldl (semMatchStep thrMatch simHT simHP tele pika) st) := by
  induction habr with
  | nil => intro st hInv; exact hInv
  | cons h t ih =>
    intro st hInv
    rw [List.foldl_cons]
    apply ih
    unfold semMatchStep
    exact semBuild_inv st h _ _ hInv
      (fun q hq => pickBest_not_used _ _ _ _ q hq)
      (fun q hq => pickBest_not_used _ _ _ _ q hq)

/-- In the matched output of match_all_posts, the claimed telegram
indices are pairwise distinct and the claimed pikabu indices are
pairwise distinct. -/
lemma match_all_posts_counterpart_nodup (thrDup thrMatch : ℚ)
    (simTT : TelegramPostModel → TelegramPostModel → ℚ)
    (simPP : PikabuPostModel → PikabuPostModel → ℚ)
    (simHT : HabrPostModel → TelegramPostModel → ℚ)
    (simHP : HabrPostModel → PikabuPostModel → ℚ)
    (habr : List HabrPostModel) (tele : List TelegramPostModel)
    (pika : List PikabuPostModel) :
    (((match_all_posts thrDup thrMatch simTT simPP simHT simHP habr tele
        pika).1).filterMap (fun r => r.telegram_index)).Nodup ∧
    (((match_all_posts thrDup thrMatch simTT simPP simHT simHP habr tele
        pika).1).filterMap (fun r => r.pikabu_index)).Nodup := by
  unfold match_all_posts
  have hInv := semFold_inv thrMatch simHT simHP
    (remove_duplicates simTT thrDup teleHasViews teleViewsOr0 tele)
    (remove_duplicates simPP thrDup pikaHasViews pikaViewsOr0 pika)
    habr ([], [], [], []) ⟨by simp, by simp, by simp, by simp⟩
  exact ⟨hInv.1, hInv.2.2.1⟩

/-! ## Deduplication lemmas (claims C3, C7 and C10) -/

lemma mem_sadd_of_mem {s : List ℕ} {x y : ℕ} (h : x ∈ s) : x ∈ sadd s y := by
  unfold sadd
  split
  · exact h
  · exact List.mem_append.2 (Or.inl h)

lemma seedFold_subset {α : Type} [Inhabited α] (sim : α → α → ℚ) (thr : ℚ)
    (posts : List α) (i : ℕ) (js : List ℕ) :
    ∀ s : List ℕ, s ⊆ js.foldl (dedupSeedSeenStep sim thr posts i) s := by
  induction js with
  | nil => intro s x hx; exact hx
  | cons j t ih =>
    intro s x hx
    rw [List.foldl_cons]
    refine ih _ ?_
    unfold dedupSeedSeenStep
    split
    · exact hx
    · split
      · exact mem_sadd_of_mem hx
      · exact hx

lemma seedFold_cleared {α : Type} [Inhabited α] (sim : α → α → ℚ) (thr : ℚ)
    (posts : List α) (i : ℕ) (js : List ℕ) :
    ∀ (s : List ℕ) (j : ℕ), j ∈ js →
      j ∉ js.foldl (dedupSeedSeenStep sim thr posts i) s →
      ¬ thr < sim (posts.getD i default) (posts.getD j default) := by
  induction js with
  | nil => intro s j hj _; exact absurd hj (List.not_mem_nil j)
  | cons j0 t ih =>
    intro s j hj hnot
    rw [List.foldl_cons] at hnot
    rcases List.mem_cons.1 hj with h1 | h1
    · subst h1
      by_cases h2 : thr < sim (posts.getD i default) (posts.getD j default)
      · exfalso
        apply hnot
        apply seedFold_subset
        unfold dedupSeedSeenStep
        by_cases h3 : j ∈ s
        · rw [if_pos h3]; exact h3
        · rw [if_neg h3, if_pos h2]
          unfold sadd
          rw [if_neg h3]
          exact List.mem_append.2 (Or.inr (by simp))
      · exact h2
    · exact ih _ j h1 hnot

lemma keepFirst_fold_inv {α : Type} [Inhabited α] (sim : α → α → ℚ)
    (thr : ℚ) (posts : List α) :
    ∀ (m k : ℕ) (st : List α × List ℕ),
      k + m = posts.length → KFInv sim thr posts k st →
      KFInv sim thr posts posts.length
        ((List.range' k m).foldl (keepFirstStep sim thr posts) st) := by
  intro m
  induction m with
  | zero =>
    intro k st hk hInv
    have hkn : k = posts.length := by omega
    subst hkn
    exact hInv
  | succ m ih =>
    intro k st hk hInv
    have hkn : k < posts.length := by omega
    rw [List.range'_succ, List.foldl_cons]
    apply ih (k + 1) _ (by omega)
    rcases hInv with ⟨kept, hmap, hlt, hpw, hclear⟩
    unfold keepFirstStep
    by_cases h1 : k ∈ st.2
    · rw [if_pos h1]
      exact ⟨kept, hmap, fun p hp => Nat.lt_succ_of_lt (hlt p hp), hpw,
        fun p hp j hj hjs hkj => hclear p hp j hj hjs (by omega)⟩
    · rw [if_neg h1]
      refine ⟨kept ++ [k], ?_, ?_, ?_, ?_⟩
      · simp only [List.map_append, List.map_cons, List.map_nil]
        rw [hmap]
      · intro p hp
        rcases List.mem_append.1 hp with h2 | h2
        · exact Nat.lt_succ_of_lt (hlt p h2)
        · simp only [List.mem_singleton] at h2
          omega
      · rw [List.pairwise_append]
        refine ⟨hpw, by simp, ?_⟩
        intro p hp q hq
        simp only [List.mem_singleton] at hq
        subst hq
        exact hclear p hp q hkn h1 (le_refl q)
      · intro p hp j hj hjs hkj
        have hjs1 : j ∉ (List.range' (k + 1) (posts.length - (k + 1))).foldl
            (dedupSeedSeenStep sim thr posts k) st.2 :=
          fun hc => hjs (mem_sadd_of_mem hc)
        rcases List.mem_append.1 hp with h2 | h2
        · have hjst : j ∉ st.2 :=
            fun hc => hjs1 (seedFold_subset sim thr posts k _ st.2 hc)
          exact hclear p h2 j hj hjst (by omega)
        · simp only [List.mem_singleton] at h2
          subst h2
          have hmem : j ∈ List.range' (p + 1) (posts.length - (p + 1)) := by
            apply List.mem_range'.2
            exact ⟨j - (p + 1), by omega, by omega⟩
          exact seedFold_cleared sim thr posts p _ st.2 j hmem hjs1

/-- Characterization of removeDuplicatesKeepFirst: its output is the
image of a list of indices into the input and is pairwise dissimilar. -/
lemma keepFirst_spec {α : Type} [Inhabited α] (sim : α → α → ℚ) (thr : ℚ)
    (posts : List α) :
    ∃ kept : List ℕ,
      removeDuplicatesKeepFirst sim thr posts
        = kept.map (fun p => posts.getD p default) ∧
      (∀ p ∈ kept, p < posts.length) ∧
      kept.Pairwise (fun p q =>
        ¬ thr < sim (posts.getD p default) (posts.getD q default)) := by
  have h := keepFirst_fold_inv sim thr posts posts.length 0 ([], [])
    (by omega) ⟨[], by simp, by simp, by simp, by simp⟩
  unfold removeDuplicatesKeepFirst
  rw [List.range_eq_range']
  rcases h with ⟨kept, hmap, hlt, hpw, _⟩
  exact ⟨kept, hmap, hlt, hpw⟩

lemma keepFirst_pairwise {α : Type} [Inhabited α] (sim : α → α → ℚ)
    (thr : ℚ) (posts : List α) :
    (removeDuplicatesKeepFirst sim thr posts).Pairwise
      (fun a b => ¬ thr < sim a b) := by
  rcases keepFirst_spec sim thr posts with ⟨kept, hmap, _, hpw⟩
  rw [hmap, List.pairwise_map]
  exact hpw

lemma keepFirst_subset {α : Type} [Inhabited α] (sim : α → α → ℚ)
    (thr : ℚ) (posts : List α) :
    ∀ x ∈ removeDuplicatesKeepFirst sim thr posts, x ∈ posts := by
  rcases keepFirst_spec sim thr posts with ⟨kept, hmap, hlt, _⟩
  intro x hx
  rw [hmap] at hx
  rcases List.mem_map.1 hx with ⟨p, hp, rfl⟩
  rw [List.getD_eq_getElem posts default (hlt p hp)]
  exact List.getElem_mem _

lemma seedFold_id {α : Type} [Inhabited α] (sim : α → α → ℚ) (thr : ℚ)
    (l : List α) (k : ℕ) (hk : k < l.length)
    (hpw : l.Pairwise (fun a b => ¬ thr < sim a b)) :
    ∀ (js : List ℕ) (s : List ℕ), (∀ j ∈ js, k < j ∧ j < l.length) →
      (∀ x ∈ s, x < k) →
      js.foldl (dedupSeedSeenStep sim thr l k) s = s := by
  intro js
  induction js with
  | nil => intro s _ _; rfl
  | cons j t ih =>
    intro s hjs hs
    rw [List.foldl_cons]
    have hj := hjs j (List.mem_cons_self j t)
    have hstep : dedupSeedSeenStep sim thr l k s j = s := by
      unfold dedupSeedSeenStep
      have h1 : j ∉ s := fun hc => absurd (hs j hc) (by omega)
      rw [if_neg h1]
      have h2 : ¬ thr < sim (l.getD k default) (l.getD j default) := by
        rw [List.getD_eq_getElem l default hk,
          List.getD_eq_getElem l default hj.2]
        have h3 := List.pairwise_iff_get.1 hpw ⟨k, hk⟩ ⟨j, hj.2⟩ hj.1
        simpa using h3
      rw [if_neg h2]
    rw [hstep]
    exact ih s (fun j2 hj2 => hjs j2 (List.mem_cons_of_mem j hj2)) hs

lemma keepFirst_fixed_fold {α : Type} [Inhabited α] (sim : α → α → ℚ)
    (thr : ℚ) (l : List α)
    (hpw : l.Pairwise (fun a b => ¬ thr < sim a b)) :
    ∀ (m k : ℕ) (acc : List α) (s : List ℕ),
      k + m = l.length → (∀ x ∈ s, x < k) →
      ((List.range' k m).foldl (keepFirstStep sim thr l) (acc, s)).1
        = acc ++ l.drop k := by
  intro m
  induction m with
  | zero =>
    intro k acc s hk _
    have hkn : k = l.length := by omega
    subst hkn
    simp [List.drop_length]
  | succ m ih =>
    intro k acc s hk hs
    have hkn : k < l.length := by omega
    rw [List.range'_succ, List.foldl_cons]
    have h1 : k ∉ s := fun hc => absurd (hs k hc) (lt_irrefl k)
    have hb : ∀ j ∈ List.range' (k + 1) (l.length - (k + 1)),
        k < j ∧ j < l.length := by
      intro j hj
      rcases List.mem_range'.1 hj with ⟨idx, hidx, rfl⟩
      omega
    have hstep : keepFirstStep sim thr l (acc, s) k
        = (acc ++ [l.getD k default], s ++ [k]) := by
      unfold keepFirstStep
      rw [if_neg h1]
      rw [seedFold_id sim thr l k hkn hpw _ s hb hs]
      unfold sadd
      rw [if_neg h1]
    rw [hstep]
    rw [ih (k + 1) (acc ++ [l.getD k default]) (s ++ [k]) (by omega)
      (by intro x hx
          rcases List.mem_append.1 hx with h2 | h2
          · exact Nat.lt_succ_of_lt (hs x h2)
          · simp only [List.mem_singleton] at h2; omega)]
    rw [List.getD_eq_getElem l default hkn, List.append_assoc]
    congr 1
    rw [List.drop_eq_getElem_cons hkn]
    simp

/-- A pairwise-dissimilar list is a fixed point of the seed-keeping
deduplication. -/
lemma keepFirst_fixed {α : Type} [Inhabited α] (sim : α → α → ℚ)
    (thr : ℚ) (l : List α)
    (hpw : l.Pairwise (fun a b => ¬ thr < sim a b)) :
    removeDuplicatesKeepFirst sim thr l = l := by
  unfold removeDuplicatesKeepFirst
  rw [List.range_eq_range']
  rw [keepFirst_fixed_fold sim thr l hpw l.length 0 [] [] (by omega) (by simp)]
  simp

lemma dedupInner_noviews {α : Type} [Inhabited α] (sim : α → α → ℚ)
    (thr : ℚ) (hasViewsAttr : α → Bool) (viewsOr0 : α → ℤ) (posts : List α)
    (i : ℕ) (hnoV : ∀ p ∈ posts, hasViewsAttr p = false) :
    ∀ (js : List ℕ), (∀ j ∈ js, j < posts.length) →
      ∀ (b : ℕ) (s : List ℕ),
        js.foldl (dedupInnerStep sim thr hasViewsAttr viewsOr0 posts i) (b, s)
          = (b, js.foldl (dedupSeedSeenStep sim thr posts i) s) := by
  intro js
  induction js with
  | nil => intro _ b s; rfl
  | cons j t ih =>
    intro hb b s
    rw [List.foldl_cons, List.foldl_cons]
    have hj : j < posts.length := hb j (List.mem_cons_self j t)
    have hV : hasViewsAttr (posts.getD j default) = false := by
      apply hnoV
      rw [List.getD_eq_getElem posts default hj]
      exact List.getElem_mem _
    have hstep : dedupInnerStep sim thr hasViewsAttr viewsOr0 posts i (b, s) j
        = (b, dedupSeedSeenStep sim thr posts i s j) := by
      unfold dedupInnerStep dedupSeedSeenStep
      by_cases h1 : j ∈ s
      · rw [if_pos h1, if_pos h1]
      · rw [if_neg h1, if_neg h1]
        by_cases h2 : thr < sim (posts.getD i default) (posts.getD j default)
        · rw [if_pos h2, if_pos h2]
          have h3 : ¬ (hasViewsAttr (posts.getD j default) = true ∧
              hasViewsAttr (posts.getD (b, s).1 default) = true ∧
              viewsOr0 (posts.getD (b, s).1 default)
                < viewsOr0 (posts.getD j default)) := by
            intro hcon
            rw [hV] at hcon
            exact absurd hcon.1 (by simp)
          rw [if_neg h3]
        · rw [if_neg h2, if_neg h2]
    rw [hstep]
    exact ih (fun j2 hj2 => hb j2 (List.mem_cons_of_mem j hj2)) b _

/-- Without a `views` attribute on any post, remove_duplicates keeps
the earliest index of every similarity cluster: it coincides with the
seed-keeping deduplication. -/
lemma dedup_noviews_eq_keepFirst {α : Type} [Inhabited α]
    (sim : α → α → ℚ) (thr : ℚ) (hasViewsAttr : α → Bool)
    (viewsOr0 : α → ℤ) (posts : List α)
    (hnoV : ∀ p ∈ posts, hasViewsAttr p = false) :
    remove_duplicates sim thr hasViewsAttr viewsOr0 posts
      = removeDuplicatesKeepFirst sim thr posts := by
  unfold remove_duplicates removeDuplicatesKeepFirst
  have hext := List.foldl_ext
    (dedupOuterStep sim thr hasViewsAttr viewsOr0 posts)
    (keepFirstStep sim thr posts) ([], [])
    (l := List.range posts.length) ?_
  · rw [hext]
  · intro st i hi
    have hi2 : i < posts.length := List.mem_range.1 hi
    unfold dedupOuterStep keepFirstStep
    by_cases h1 : i ∈ st.2
    · rw [if_pos h1, if_pos h1]
    · rw [if_neg h1, if_neg h1]
      have hbnd : ∀ j ∈ List.range' (i + 1) (posts.length - (i + 1)),
          j < posts.length := by
        intro j hj
        rcases List.mem_range'.1 hj with ⟨idx, hidx, rfl⟩
        omega
      rw [dedupInner_noviews sim thr hasViewsAttr viewsOr0 posts i hnoV _
        hbnd i st.2]
      rw [if_pos hi2]

/-- Without a `views` attribute on any post, remove_duplicates is
idempotent: a second run over its own output changes nothing. -/
lemma dedup_noviews_idempotent {α : Type} [Inhabited α]
    (sim : α → α → ℚ) (thr : ℚ) (hasViewsAttr : α → Bool)
    (viewsOr0 : α → ℤ) (posts : List α)
    (hnoV : ∀ p ∈ posts, hasViewsAttr p = false) :
    remove_duplicates sim thr hasViewsAttr viewsOr0
        (remove_duplicates sim thr hasViewsAttr viewsOr0 posts)
      = remove_duplicates sim thr hasViewsAttr viewsOr0 posts := by
  have h1 := dedup_noviews_eq_keepFirst sim thr hasViewsAttr viewsOr0
    posts hnoV
  have hnoV2 : ∀ p ∈ removeDuplicatesKeepFirst sim thr posts,
      hasViewsAttr p = false :=
    fun p hp => hnoV p (keepFirst_subset sim thr posts p hp)
  have h2 := dedup_noviews_eq_keepFirst sim thr hasViewsAttr viewsOr0
    (removeDuplicatesKeepFirst sim thr posts) hnoV2
  rw [h1, h2, keepFirst_fixed sim thr _ (keepFirst_pairwise sim thr posts)]

/-! ## Counting lemma for the TF-IDF weights -/

lemma tfidf_counter_fold (stop : List String) :
    ∀ (docs : List Doc) (c0 : String → ℕ) (g : String),
      (docs.foldl
        (fun c d => fun g2 =>
          c g2 + (if g2 ∈ doc_ngram_set stop d then 1 else 0)) c0) g
        = c0 g + docs.countP (fun d => decide (g ∈ doc_ngram_set stop d)) := by
  intro docs
  induction docs with
  | nil => intro c0 g; simp
  | cons d t ih =>
    intro c0 g
    rw [List.foldl_cons, ih, List.countP_cons]
    by_cases h : g ∈ doc_ngram_set stop d
    · simp [h]
      omega
    · simp [h]

/-! ## Claim theorems -/

section ClaimTheorems

attribute [local semireducible] Rat.add Rat.mul Rat.inv Rat.sub Rat.ofScientific

set_option maxRecDepth 80000

/-- C1 (code bug): the spec claims a pair is accepted exactly when
`score ≥ max(60, 0.9·min(|set_tg|, |set_habr|))` with the sizes of the
specific pair; the code instead reads `habr_post_ngrams` after the loop
that bound it (lines 150 and 167 of content_comparator.py), so the
threshold and the reported habr n-gram count use the n-gram set of the
last index entry iterated.  At this input the pair (c1_tg, c1_habr1)
scores 60 with pair sizes (67, 1): the claimed formula accepts it
(threshold 60), but the code tests it against
max(60, 0.9·min(67, |c1_set2| = 67)) = 60.3 and emits no match at all. -/
theorem C1_stale_threshold_evaluation :
    find_matching_posts [] [c1_tg] c1_index c1_weights 1 = [] ∧
    c1_tgSet.length = 67 ∧ c1_set1.length = 1 ∧ c1_set2.length = 67 ∧
    simScore c1_weights c1_tgSet c1_set1 = 60 ∧
    claim_accepts (simScore c1_weights c1_tgSet c1_set1)
      c1_tgSet.length c1_set1.length = true ∧
    passes_threshold (simScore c1_weights c1_tgSet c1_set1)
      (min c1_tgSet.length c1_set2.length) = false := by
  decide

/-- C2: after either matcher, no counterpart id appears in more than one
accepted match record, and no principal (habr) post yields more than one
record per counterpart source.  Lexical path: the emitted telegram ids
are pairwise distinct and the (title, date) habr keys are pairwise
distinct.  Semantic path: the claimed telegram indices are pairwise
distinct and the claimed pikabu indices are pairwise distinct (each
record holds at most one of each by construction). -/
theorem C2_one_to_one :
    (∀ (stop : List String) (tgs : List TgDict) (idx : LexIndex)
        (w : String → Option ℚ) (n : ℕ),
      ((find_matching_posts stop tgs idx w n).map (fun o => o.tgId)).Nodup ∧
      ((find_matching_posts stop tgs idx w n).map
        (fun o => (o.title, o.date))).Nodup) ∧
    (∀ (thrDup thrMatch : ℚ)
        (simTT : TelegramPostModel → TelegramPostModel → ℚ)
        (simPP : PikabuPostModel → PikabuPostModel → ℚ)
        (simHT : HabrPostModel → TelegramPostModel → ℚ)
        (simHP : HabrPostModel → PikabuPostModel → ℚ)
        (habr : List HabrPostModel) (tele : List TelegramPostModel)
        (pika : List PikabuPostModel),
      (((match_all_posts thrDup thrMatch simTT simPP simHT simHP habr tele
          pika).1).filterMap (fun r => r.telegram_index)).Nodup ∧
      (((match_all_posts thrDup thrMatch simTT simPP simHT simHP habr tele
          pika).1).filterMap (fun r => r.pikabu_index)).Nodup) :=
  ⟨fun stop tgs idx w n =>
    ⟨find_matching_posts_tgIds_nodup stop tgs idx w n,
     find_matching_posts_keys_nodup stop tgs idx w n⟩,
   fun thrDup thrMatch simTT simPP simHT simHP habr tele pika =>
    match_all_posts_counterpart_nodup thrDup thrMatch simTT simPP simHT simHP
      habr tele pika⟩

/-- C3 (counterexample): remove_duplicates is not idempotent.  Three
posts with views 1, 2, 0 and similarities sim(a,b) = sim(b,c) = 0.95,
sim(a,c) = 0.5: the first run clusters {a, b}, keeps b (more views) and
keeps c, producing [b, c]; since sim(b,c) = 0.95 > 0.9, the second run
merges them to [b]. -/
theorem C3_dedup_not_idempotent :
    remove_duplicates c3_sim threshold_duplicate_default teleHasViews
        teleViewsOr0
        (remove_duplicates c3_sim threshold_duplicate_default teleHasViews
          teleViewsOr0 [c3_postA, c3_postB, c3_postC])
      ≠ remove_duplicates c3_sim threshold_duplicate_default teleHasViews
          teleViewsOr0 [c3_postA, c3_postB, c3_postC] ∧
    remove_duplicates c3_sim threshold_duplicate_default teleHasViews
        teleViewsOr0 [c3_postA, c3_postB, c3_postC]
      = [c3_postB, c3_postC] ∧
    remove_duplicates c3_sim threshold_duplicate_default teleHasViews
        teleViewsOr0 [c3_postB, c3_postC] = [c3_postB] := by
  decide

/-- C3 (amended): for posts without a `views` attribute — so the
representative of each cluster is never reselected by engagement —
running remove_duplicates a second time on its own output returns that
output unchanged.  (With `views` present the claim fails, see the
counterexample: a higher-views representative can still be similar to a
later cluster seed.) -/
theorem C3_dedup_idempotent_without_views {α : Type} [Inhabited α]
    (sim : α → α → ℚ) (thr : ℚ) (hasViewsAttr : α → Bool)
    (viewsOr0 : α → ℤ) (posts : List α)
    (hnoV : ∀ p ∈ posts, hasViewsAttr p = false) :
    remove_duplicates sim thr hasViewsAttr viewsOr0
        (remove_duplicates sim thr hasViewsAttr viewsOr0 posts)
      = remove_duplicates sim thr hasViewsAttr viewsOr0 posts :=
  dedup_noviews_idempotent sim thr hasViewsAttr viewsOr0 posts hnoV

/-- Witness for C3 (amended): concrete Pikabu posts (no views
attribute) with a nontrivial cluster; a second deduplication run leaves
the output unchanged. -/
theorem C3_dedup_idempotent_without_views_witness :
    (∀ p ∈ [pk1, pk2, pk3], pikaHasViews p = false) ∧
    remove_duplicates pkSim threshold_duplicate_default pikaHasViews
        pikaViewsOr0
        (remove_duplicates pkSim threshold_duplicate_default pikaHasViews
          pikaViewsOr0 [pk1, pk2, pk3])
      = remove_duplicates pkSim threshold_duplicate_default pikaHasViews
          pikaViewsOr0 [pk1, pk2, pk3] :=
  ⟨by decide,
   C3_dedup_idempotent_without_views pkSim threshold_duplicate_default
     pikaHasViews pikaViewsOr0 [pk1, pk2, pk3] (by decide)⟩

/-- C4: a pair whose score is exactly the computed threshold is
accepted.  Lexical matcher: the threshold test of line 156 is `≥`, so
the exact value max(ABS, REL·min_count) passes for every min_count.
Semantic matcher: the candidate test of lines 161/173 is
`score > best and score ≥ threshold`, so a score exactly equal to the
match threshold is accepted whenever it beats the running best (as it
does against the initial best of 0 for any positive threshold). -/
theorem C4_threshold_boundary :
    (∀ m : ℕ, passes_threshold
      (max MIN_ABSOLUTE_THRESHOLD (MIN_RELATIVE_THRESHOLD * (m : ℚ)))
      m = true) ∧
    (∀ best thr : ℚ, best < thr → match_accepts thr best thr = true) := by
  constructor
  · intro m
    unfold passes_threshold
    simp
  · intro best thr h
    unfold match_accepts
    simp [h]

/-- Witness for C4: the default match threshold 0.65 accepted at the
exact boundary against the initial best score 0. -/
theorem C4_threshold_boundary_witness :
    (0 : ℚ) < threshold_match_default ∧
    match_accepts threshold_match_default 0 threshold_match_default
      = true :=
  ⟨by norm_num [threshold_match_default],
   C4_threshold_boundary.2 0 threshold_match_default
     (by norm_num [threshold_match_default])⟩

/-- C5: compute_tfidf_weights maps an n-gram `g` to exactly
`ln(N / (df + 1))`, where `N` is the document count and `df` the number
of documents whose n-gram set (from content, else text, else title)
contains `g`; a gram has an entry exactly when it occurs in at least
one document's set. -/
theorem C5_tfidf_formula (stop : List String) (docs : List Doc)
    (g : String) :
    compute_tfidf_weights stop docs g
      = if 0 < doc_freq stop docs g then
          some (Real.log
            ((docs.length : ℝ) / ((doc_freq stop docs g : ℝ) + 1)))
        else none := by
  have hc : tfidf_counter stop docs g = doc_freq stop docs g := by
    unfold tfidf_counter doc_freq
    rw [tfidf_counter_fold stop docs (fun _ => 0) g]
    simp
  unfold compute_tfidf_weights
  rw [hc]
  rcases Nat.eq_zero_or_pos (doc_freq stop docs g) with h | h
  · simp [h]
  · rw [if_neg (by omega), if_pos h]

/-- C6: generate_ngrams raises ValueError exactly when the window size
is ≤ 0; for a positive window a text with fewer tokens than the window
yields the empty list (no error); and no produced window belongs to the
configured stop-phrase set. -/
theorem C6_ngram_generation (stop : List String) (text : String)
    (n : ℤ) :
    ((generate_ngrams stop text n
        = Except.error "n must be positive integer") ↔ n ≤ 0) ∧
    (∀ m : ℕ, 1 ≤ m → (pySplit text).length < m →
      generate_ngrams stop text (m : ℤ) = Except.ok []) ∧
    (∀ l : List String, generate_ngrams stop text n = Except.ok l →
      ∀ g ∈ l, g ∉ stop) := by
  refine ⟨?_, ?_, ?_⟩
  · unfold generate_ngrams
    by_cases h : n ≤ 0
    · simp [h]
    · simp [h]
  · intro m hm hlt
    unfold generate_ngrams
    have h0 : ¬ ((m : ℤ) ≤ 0) := by omega
    rw [if_neg h0]
    have htn : (m : ℤ).toNat = m := Int.toNat_natCast m
    rw [htn]
    unfold ngramList ngramWindows
    have hz : (pySplit text).length + 1 - m = 0 := by omega
    rw [hz]
    simp
  · intro l hl g hg
    unfold generate_ngrams at hl
    by_cases h : n ≤ 0
    · rw [if_pos h] at hl
      exact absurd hl (by simp)
    · rw [if_neg h] at hl
      simp only [Except.ok.injEq] at hl
      subst hl
      unfold ngramList at hg
      have h2 := List.mem_filter.1 hg
      simpa using h2.2

/-- Witness for C6: window -1 raises, window 4 on a 3-token text gives
the empty list, and the surviving 2-gram of "a b c" under stop set
{"b c"} is "a b", which is not a stop phrase. -/
theorem C6_ngram_generation_witness :
    generate_ngrams ["b c"] "a b c" (-1)
      = Except.error "n must be positive integer" ∧
    generate_ngrams ["b c"] "a b c" ((4 : ℕ) : ℤ) = Except.ok [] ∧
    ∀ g ∈ ["a b"], g ∉ (["b c"] : List String) :=
  ⟨(C6_ngram_generation ["b c"] "a b c" (-1)).1.mpr (by decide),
   (C6_ngram_generation ["b c"] "a b c" (-1)).2.1 4 (by decide) (by decide),
   (C6_ngram_generation ["b c"] "a b c" 2).2.2 ["a b"] (by rfl)⟩

/-- C7: three near-identical Telegram-like posts with views 10, 50 and
5 and pairwise similarity 0.95 (above the 0.9 duplicate threshold)
collapse to the single representative with views = 50. -/
theorem C7_dedup_keeps_highest_views :
    remove_duplicates c7_sim threshold_duplicate_default teleHasViews
        teleViewsOr0 [c7_post1, c7_post2, c7_post3] = [c7_post2] ∧
    c7_post2.views = some 50 := by
  decide

/-- C8: a document lacking all fallback text fields is treated as empty
text: extraction yields the empty string, its n-gram set is empty for
every stop set and positive window, its similarity score against any
n-gram set is 0 (both as left and right operand), and generate_ngrams
returns `ok []` rather than raising; likewise a telegram dict without a
text key yields the empty n-gram set in find_matching_posts. -/
theorem C8_missing_text_fields (d : Doc) (hc : d.content = none)
    (ht : d.text = none) (hl : d.title = none) :
    docText d = "" ∧
    (∀ stop : List String, doc_ngram_set stop d = []) ∧
    (∀ (stop : List String) (w : String → Option ℚ)
        (other : List String),
      simScore w (doc_ngram_set stop d) other = 0 ∧
      simScore w other (doc_ngram_set stop d)
        = simScore w other []) ∧
    (∀ stop : List String,
      generate_ngrams stop (preprocess_text (docText d)) (NGRAM_SIZE : ℤ)
        = Except.ok []) ∧
    (∀ (tg : TgDict), tg.text = none → ∀ (stop : List String) (m : ℕ),
      1 ≤ m →
      dedupFirst (ngramList stop (preprocess_text (tg.text.getD "")) m)
        = []) := by
  have htext : docText d = "" := by
    simp [docText, hc, ht, hl, pyOrS]
  have hpre : preprocess_text "" = "" := rfl
  have hngr : ∀ (stop : List String) (m : ℕ), 1 ≤ m →
      ngramList stop "" m = [] := by
    intro stop m hm
    unfold ngramList ngramWindows
    have hsplit : pySplit "" = [] := rfl
    rw [hsplit]
    have hz : ([] : List String).length + 1 - m = 0 := by
      simp only [List.length_nil]
      omega
    rw [hz]
    simp
  refine ⟨htext, ?_, ?_, ?_, ?_⟩
  · intro stop
    unfold doc_ngram_set
    rw [htext, hpre, hngr stop NGRAM_SIZE (by norm_num [NGRAM_SIZE])]
    rfl
  · intro stop w other
    constructor
    · unfold doc_ngram_set
      rw [htext, hpre, hngr stop NGRAM_SIZE (by norm_num [NGRAM_SIZE])]
      rfl
    · unfold doc_ngram_set
      rw [htext, hpre, hngr stop NGRAM_SIZE (by norm_num [NGRAM_SIZE])]
      rfl
  · intro stop
    unfold generate_ngrams
    rw [if_neg (by norm_num [NGRAM_SIZE])]
    rw [htext, hpre]
    rw [show ((NGRAM_SIZE : ℤ)).toNat = NGRAM_SIZE from rfl]
    rw [hngr stop NGRAM_SIZE (by norm_num [NGRAM_SIZE])]
  · intro tg htg stop m hm
    rw [htg]
    show dedupFirst (ngramList stop (preprocess_text "") m) = []
    rw [hpre, hngr stop m hm]
    rfl

/-- Witness for C8: the empty document record. -/
theorem C8_missing_text_fields_witness :
    docText ⟨none, none, none⟩ = "" ∧
    doc_ngram_set ["a b c"] ⟨none, none, none⟩ = [] ∧
    simScore (fun _ => some 1) (doc_ngram_set ["a b c"] ⟨none, none, none⟩)
      ["x y z"] = 0 :=
  ⟨(C8_missing_text_fields ⟨none, none, none⟩ rfl rfl rfl).1,
   (C8_missing_text_fields ⟨none, none, none⟩ rfl rfl rfl).2.1 ["a b c"],
   ((C8_missing_text_fields ⟨none, none, none⟩ rfl rfl rfl).2.2.1
     ["a b c"] (fun _ => some 1) ["x y z"]).1⟩

/-- C9: the lexical matcher identifies a Habr post solely by the pair
(title, date): the dict key it uses (habrKey) depends only on those two
fields, and the emitted match records carry pairwise-distinct
(title, date) keys — at most one record per key per pass. -/
theorem C9_habr_key_identity :
    (∀ (stop : List String) (tgs : List TgDict) (idx : LexIndex)
        (w : String → Option ℚ) (n : ℕ),
      ((find_matching_posts stop tgs idx w n).map
        (fun o => (o.title, o.date))).Nodup) ∧
    (∀ h1 h2 : HabrDict, h1.title = h2.title → h1.date = h2.date →
      habrKey h1 = habrKey h2) := by
  constructor
  · intro stop tgs idx w n
    exact find_matching_posts_keys_nodup stop tgs idx w n
  · intro h1 h2 htitle hdate
    unfold habrKey
    rw [htitle, hdate]

/-- Witness for C9: two Habr dicts sharing title and date (differing
records in the source can still agree on both fields) map to the same
candidate key. -/
theorem C9_habr_key_identity_witness :
    habrKey ⟨"Same title", some "2024-01-01"⟩
      = habrKey ⟨"Same title", some "2024-01-01"⟩ :=
  C9_habr_key_identity.2 ⟨"Same title", some "2024-01-01"⟩
    ⟨"Same title", some "2024-01-01"⟩ rfl rfl

/-- C10: for posts without a `views` attribute (such as Pikabu posts,
which carry `rating` instead), remove_duplicates always keeps the
earliest-index post of each similarity cluster: it coincides with the
seed-keeping deduplication removeDuplicatesKeepFirst, whose
representative for every cluster is the cluster seed — the smallest
index — regardless of any engagement values. -/
theorem C10_keeps_earliest_without_views {α : Type} [Inhabited α]
    (sim : α → α → ℚ) (thr : ℚ) (hasViewsAttr : α → Bool)
    (viewsOr0 : α → ℤ) (posts : List α)
    (hnoV : ∀ p ∈ posts, hasViewsAttr p = false) :
    remove_duplicates sim thr hasViewsAttr viewsOr0 posts
      = removeDuplicatesKeepFirst sim thr posts :=
  dedup_noviews_eq_keepFirst sim thr hasViewsAttr viewsOr0 posts hnoV

/-- Witness for C10: the sample Pikabu posts. -/
theorem C10_keeps_earliest_without_views_witness :
    (∀ p ∈ [pk1, pk2, pk3], pikaHasViews p = false) ∧
    remove_duplicates pkSim threshold_duplicate_default pikaHasViews
        pikaViewsOr0 [pk1, pk2, pk3]
      = removeDuplicatesKeepFirst pkSim threshold_duplicate_default
          [pk1, pk2, pk3] :=
  ⟨by decide,
   C10_keeps_earliest_without_views pkSim threshold_duplicate_default
     pikaHasViews pikaViewsOr0 [pk1, pk2, pk3] (by decide)⟩

end ClaimTheorems

end PracticeParsing
